import Mathlib

/-!
Verification of the real-time media sink layer of openauto-rk3229-armbian.

Shallow embedding of:
- LockFreeRingBuffer (src/include/f1x/openauto/autoapp/Projection/LockFreeRingBuffer.hpp)
- RtAudioOutput write/stop/callback (src/src/autoapp/Projection/RtAudioOutput.cpp)
- RtAudioInput read/stop (src/src/autoapp/Projection/RtAudioInput.cpp)
- AudioPlayer DAC rate negotiation (src/src/autoapp/Player/AudioPlayer.cpp)
- FFmpegDrmVideoOutput zero-copy buffer rotation (src/src/autoapp/Projection/FFmpegDrmVideoOutput.cpp)

Machine integers (size_t) are modelled as Nat with explicit wrap-around modulo 2^64.
The C++ bitmask `x & mask_` (mask_ = Capacity - 1, Capacity a power of two) is kept
as Nat bitwise-and `x &&& (Capacity - 1)`.
-/

namespace OpenautoRK

/-- Width of size_t arithmetic: all C++ size_t computations wrap modulo 2^64. -/
def W64 : Nat := 2 ^ 64

/-- Unsigned size_t subtraction `a - b` with wrap-around modulo 2^64
(C++ unsigned arithmetic). -/
def usub (a b : Nat) : Nat := (a + (W64 - b % W64)) % W64

/-- State of LockFreeRingBuffer<Capacity>
(LockFreeRingBuffer.hpp lines 173-178): monotone producer index head_,
monotone consumer index tail_ (both size_t, wrapping mod 2^64) and the
byte array buffer_[Capacity].  buffer_ is modelled as a total function from
physical index to byte value; only indices < Capacity are ever accessed.
Atomic memory orderings are irrelevant in this sequential (single
producer / single consumer, interleaved-call) model. -/
structure LockFreeRingBuffer (Capacity : Nat) where
  head_ : Nat
  tail_ : Nat
  buffer_ : Nat → Nat

namespace LockFreeRingBuffer

/-- Constructor (lines 52-56): head_ = 0, tail_ = 0, buffer zeroed by memset. -/
def init (Capacity : Nat) : LockFreeRingBuffer Capacity := ⟨0, 0, fun _ => 0⟩

/-- Model of one `memcpy(buf + start, src, src.length)`: bytes of src are placed
at consecutive indices starting at start; everything else is unchanged. -/
def memcpyIn (buf : Nat → Nat) (start : Nat) (src : List Nat) : Nat → Nat :=
  fun i => if start ≤ i ∧ i - start < src.length then src.getD (i - start) 0 else buf i

/-- Method available() (lines 141-146): `(head - tail) & mask_`. -/
def available {Capacity : Nat} (s : LockFreeRingBuffer Capacity) : Nat :=
  usub s.head_ s.tail_ &&& (Capacity - 1)

/-- Method space() (lines 151-156): `(tail - head - 1 + Capacity) & mask_`.
The intermediate size_t additions/subtractions wrap modulo 2^64. -/
def space {Capacity : Nat} (s : LockFreeRingBuffer Capacity) : Nat :=
  ((usub (usub s.tail_ s.head_) 1 + Capacity) % W64) &&& (Capacity - 1)

/-- Method write(data, size) (lines 64-96).  The C++ (pointer, size) pair is
modelled as a list with size = data.length; a null pointer or size == 0 is the
empty list.  The local variable `available` of the source is named
availableSpace here to avoid clashing with the method available().
Returns (bytes actually written, new state). -/
def write {Capacity : Nat} (s : LockFreeRingBuffer Capacity) (data : List Nat) :
    Nat × LockFreeRingBuffer Capacity :=
  if data.length = 0 then (0, s)
  else
    let head := s.head_
    let tail := s.tail_
    let availableSpace := ((usub (usub tail head) 1 + Capacity) % W64) &&& (Capacity - 1)
    let toWrite := min data.length availableSpace
    if toWrite = 0 then (0, s)
    else
      let headIdx := head &&& (Capacity - 1)
      let firstPart := min toWrite (Capacity - headIdx)
      let buf1 := memcpyIn s.buffer_ headIdx (data.take firstPart)
      let buf2 := if firstPart < toWrite
                  then memcpyIn buf1 0 ((data.take toWrite).drop firstPart)
                  else buf1
      (toWrite, ⟨(head + toWrite) % W64, tail, buf2⟩)

/-- Method read(data, size) (lines 104-136).  Returns (bytes read out, new state);
the returned byte count of the source is the length of the returned list. -/
def read {Capacity : Nat} (s : LockFreeRingBuffer Capacity) (size : Nat) :
    List Nat × LockFreeRingBuffer Capacity :=
  if size = 0 then ([], s)
  else
    let tail := s.tail_
    let head := s.head_
    let availableData := usub head tail &&& (Capacity - 1)
    let toRead := min size availableData
    if toRead = 0 then ([], s)
    else
      let tailIdx := tail &&& (Capacity - 1)
      let firstPart := min toRead (Capacity - tailIdx)
      let out := (List.range firstPart).map (fun i => s.buffer_ (tailIdx + i)) ++
                 (List.range (toRead - firstPart)).map (fun i => s.buffer_ i)
      (out, ⟨head, (tail + toRead) % W64, s.buffer_⟩)

/-- Method clear() (lines 162-166): head_ = 0, tail_ = 0; buffer bytes untouched. -/
def clear {Capacity : Nat} (s : LockFreeRingBuffer Capacity) : LockFreeRingBuffer Capacity :=
  ⟨0, 0, s.buffer_⟩

/-- Logical (unread) content of the buffer: the available() bytes starting at
physical index tail_ mod Capacity.  Abstraction function used to state FIFO
correctness; not part of the source. -/
def contents {Capacity : Nat} (s : LockFreeRingBuffer Capacity) : List Nat :=
  (List.range (available s)).map (fun i => s.buffer_ ((s.tail_ + i) % Capacity))

end LockFreeRingBuffer

section RingArith

open LockFreeRingBuffer

/-- Bitmask with Capacity - 1 is reduction modulo Capacity = 2^k. -/
theorem mask_mod (k x : Nat) : x &&& (2 ^ k - 1) = x % 2 ^ k :=
  Nat.and_pow_two_sub_one_eq_mod x k

theorem W64_pos : 0 < W64 := by norm_num [W64]

theorem natCast_W64_eq_zero {k : Nat} (hk : k ≤ 64) : ((W64 : Nat) : ZMod (2 ^ k)) = 0 := by
  rw [ZMod.natCast_zmod_eq_zero_iff_dvd]
  exact pow_dvd_pow 2 hk

theorem natCast_mod_W64 {k : Nat} (hk : k ≤ 64) (t : Nat) :
    ((t % W64 : Nat) : ZMod (2 ^ k)) = (t : ZMod (2 ^ k)) := by
  conv_rhs => rw [← Nat.mod_add_div t W64]
  push_cast
  rw [natCast_W64_eq_zero hk]
  ring

theorem usub_cast {k : Nat} (hk : k ≤ 64) (a b : Nat) :
    ((usub a b : Nat) : ZMod (2 ^ k)) = (a : ZMod (2 ^ k)) - b := by
  unfold usub
  rw [natCast_mod_W64 hk, Nat.cast_add,
    Nat.cast_sub (Nat.le_of_lt (Nat.mod_lt b W64_pos)),
    natCast_W64_eq_zero hk, natCast_mod_W64 hk]
  ring

theorem mod_pow_eq_val (k x : Nat) : x % 2 ^ k = ((x : ZMod (2 ^ k))).val :=
  (ZMod.val_natCast x).symm

theorem available_eq {k : Nat} (hk : k ≤ 64) (s : LockFreeRingBuffer (2 ^ k)) :
    available s = (((s.head_ : ZMod (2 ^ k)) - s.tail_)).val := by
  rw [available, mask_mod, mod_pow_eq_val, usub_cast hk]

theorem space_eq {k : Nat} (hk : k ≤ 64) (s : LockFreeRingBuffer (2 ^ k)) :
    space s = ((s.tail_ : ZMod (2 ^ k)) - s.head_ - 1).val := by
  rw [space, mask_mod, mod_pow_eq_val, natCast_mod_W64 hk, Nat.cast_add,
    usub_cast hk, usub_cast hk, ZMod.natCast_self]
  ring_nf

theorem val_add_val_neg_sub_one {C : Nat} (hC : 0 < C) (x : ZMod C) :
    x.val + (-x - 1).val = C - 1 := by
  haveI : NeZero C := ⟨hC.ne'⟩
  have ha : x.val < C := ZMod.val_lt x
  have h1 : ((C - 1 - x.val : Nat) : ZMod C) = -x - 1 := by
    rw [Nat.cast_sub (by omega : x.val ≤ C - 1), Nat.cast_sub (by omega : 1 ≤ C),
      ZMod.natCast_self, ZMod.natCast_val, ZMod.cast_id]
    ring
  rw [← h1, ZMod.val_natCast, Nat.mod_eq_of_lt (by omega)]
  omega

/-- Core of claim C1: in any state whatsoever (in particular any reachable one),
available() + space() = Capacity - 1. -/
theorem available_add_space {k : Nat} (hk : k ≤ 64) (s : LockFreeRingBuffer (2 ^ k)) :
    available s + space s = 2 ^ k - 1 := by
  rw [available_eq hk, space_eq hk]
  have h := val_add_val_neg_sub_one (C := 2 ^ k) (by positivity)
    ((s.head_ : ZMod (2 ^ k)) - (s.tail_ : ZMod (2 ^ k)))
  have e : -((s.head_ : ZMod (2 ^ k)) - (s.tail_ : ZMod (2 ^ k))) - 1
      = (s.tail_ : ZMod (2 ^ k)) - (s.head_ : ZMod (2 ^ k)) - 1 := by ring
  rw [e] at h
  exact h

end RingArith

section RingHelpers

open LockFreeRingBuffer

theorem getD_of_lt {α : Type} (l : List α) {i : Nat} (h : i < l.length) (d : α) :
    l.getD i d = l[i] := by
  simp [List.getD_eq_getElem?_getD, List.getElem?_eq_getElem h]

theorem getD_take {α : Type} (l : List α) {n i : Nat} (h : i < n) (d : α) :
    (l.take n).getD i d = l.getD i d := by
  simp [List.getD_eq_getElem?_getD, List.getElem?_take_of_lt h]

theorem getD_drop {α : Type} (l : List α) (n i : Nat) (d : α) :
    (l.drop n).getD i d = l.getD (n + i) d := by
  simp [List.getD_eq_getElem?_getD, List.getElem?_drop]

theorem memcpyIn_in (buf : Nat → Nat) (start : Nat) (src : List Nat) {i : Nat}
    (h : i < src.length) : memcpyIn buf start src (start + i) = src.getD i 0 := by
  unfold memcpyIn
  rw [if_pos ⟨Nat.le_add_right _ _, by omega⟩]
  congr 1
  omega

theorem memcpyIn_out (buf : Nat → Nat) (start : Nat) (src : List Nat) {p : Nat}
    (h : p < start ∨ start + src.length ≤ p) : memcpyIn buf start src p = buf p := by
  unfold memcpyIn
  rw [if_neg (by omega)]

theorem val_add_nat {C : Nat} (hC : 0 < C) (x : ZMod C) (m : Nat) (h : x.val + m < C) :
    (x + (m : ZMod C)).val = x.val + m := by
  haveI : NeZero C := ⟨hC.ne'⟩
  rw [ZMod.val_add, ZMod.val_natCast, Nat.mod_eq_of_lt (show m < C by omega),
    Nat.mod_eq_of_lt h]

theorem val_sub_nat {C : Nat} (hC : 0 < C) (x : ZMod C) (m : Nat) (h : m ≤ x.val) :
    (x - (m : ZMod C)).val = x.val - m := by
  haveI : NeZero C := ⟨hC.ne'⟩
  have hx : ((x.val - m : Nat) : ZMod C) = x - m := by
    rw [Nat.cast_sub h, ZMod.natCast_val, ZMod.cast_id]
  rw [← hx, ZMod.val_natCast,
    Nat.mod_eq_of_lt (by have := ZMod.val_lt x; omega)]

theorem head_cast_eq {k : Nat} (hk : k ≤ 64) (s : LockFreeRingBuffer (2 ^ k)) :
    (s.head_ : ZMod (2 ^ k)) = (s.tail_ : ZMod (2 ^ k)) + (available s : Nat) := by
  haveI : NeZero (2 ^ k) := ⟨(by positivity : 0 < 2 ^ k).ne'⟩
  rw [available_eq hk, ZMod.natCast_val, ZMod.cast_id]
  ring

theorem nat_mod_eq_of_cast_eq {C x y : Nat} (h : (x : ZMod C) = (y : ZMod C)) :
    x % C = y % C :=
  (ZMod.natCast_eq_natCast_iff x y C).mp h

theorem cast_eq_of_nat_mod_eq {C x y : Nat} (h : x % C = y % C) :
    (x : ZMod C) = (y : ZMod C) :=
  (ZMod.natCast_eq_natCast_iff x y C).mpr h

theorem mod_W64_add_mod {k : Nat} (hk : k ≤ 64) (a b : Nat) :
    (a % W64 + b) % 2 ^ k = (a + b) % 2 ^ k := by
  apply nat_mod_eq_of_cast_eq
  push_cast
  rw [natCast_mod_W64 hk]

theorem contents_length {Capacity : Nat} (s : LockFreeRingBuffer Capacity) :
    (contents s).length = available s := by
  simp [contents]

end RingHelpers

section TwoPartCopy

open LockFreeRingBuffer

/-- Post-write buffer characterization, new bytes: the two memcpy calls of
write() (direct part at headIdx, wrapped part at 0) place byte j of the
accepted data at physical index (headIdx + j) mod Capacity. -/
theorem twoPartCopy_new {C : Nat} (buf : Nat → Nat) (data : List Nat) (H T : Nat)
    (hH : H < C) (hT1 : T ≤ C - 1) (hT2 : T ≤ data.length) {j : Nat} (hj : j < T) :
    (if min T (C - H) < T
       then memcpyIn (memcpyIn buf H (data.take (min T (C - H)))) 0
              ((data.take T).drop (min T (C - H)))
       else memcpyIn buf H (data.take (min T (C - H)))) ((H + j) % C)
      = data.getD j 0 := by
  have hlen1 : (data.take (min T (C - H))).length = min T (C - H) := by
    simp [List.length_take]; omega
  have hlen2 : ((data.take T).drop (min T (C - H))).length = T - min T (C - H) := by
    simp [List.length_drop, List.length_take]; omega
  by_cases hjF : j < min T (C - H)
  · have hHj : H + j < C := by omega
    rw [Nat.mod_eq_of_lt hHj]
    split
    · rw [memcpyIn_out _ _ _ (Or.inr (by omega)),
        memcpyIn_in _ _ _ (by omega), getD_take _ hjF]
    · rw [memcpyIn_in _ _ _ (by omega), getD_take _ hjF]
  · have hiff : min T (C - H) < T := by omega
    have hF : min T (C - H) = C - H := by omega
    rw [if_pos hiff]
    have hpos : (H + j) % C = j - (C - H) := by
      have h1 : H + j = C + (j - (C - H)) := by omega
      rw [h1, Nat.add_mod_left, Nat.mod_eq_of_lt (by omega)]
    rw [hpos, show j - (C - H) = 0 + (j - (C - H)) by omega,
      memcpyIn_in _ _ _ (by omega), getD_drop, getD_take _ (by omega : min T (C - H) + (j - (C - H)) < T)]
    congr 1
    omega

/-- Post-write buffer characterization, untouched bytes: physical indices not of
the form (headIdx + j) mod Capacity for an accepted j are unchanged. -/
theorem twoPartCopy_old {C : Nat} (buf : Nat → Nat) (data : List Nat) (H T : Nat)
    (hH : H < C) (hT1 : T ≤ C - 1) (hT2 : T ≤ data.length) {p : Nat} (hp : p < C)
    (hnot : ∀ j, j < T → (H + j) % C ≠ p) :
    (if min T (C - H) < T
       then memcpyIn (memcpyIn buf H (data.take (min T (C - H)))) 0
              ((data.take T).drop (min T (C - H)))
       else memcpyIn buf H (data.take (min T (C - H)))) p = buf p := by
  have hlen1 : (data.take (min T (C - H))).length = min T (C - H) := by
    simp [List.length_take]; omega
  have hlen2 : ((data.take T).drop (min T (C - H))).length = T - min T (C - H) := by
    simp [List.length_drop, List.length_take]; omega
  have hb1 : memcpyIn buf H (data.take (min T (C - H))) p = buf p := by
    apply memcpyIn_out
    rcases Nat.lt_or_ge p H with h | h
    · exact Or.inl h
    · right
      rw [hlen1]
      by_contra hlt
      refine hnot (p - H) (by omega) ?_
      rw [show H + (p - H) = p by omega, Nat.mod_eq_of_lt hp]
  split
  · rename_i hw
    have hF : min T (C - H) = C - H := by omega
    rw [memcpyIn_out, hb1]
    right
    rw [hlen2]
    by_contra hlt
    refine hnot (min T (C - H) + p) (by omega) ?_
    rw [show H + (min T (C - H) + p) = C + p by omega, Nat.add_mod_left,
      Nat.mod_eq_of_lt hp]
  · exact hb1

end TwoPartCopy

section RingSpec

open LockFreeRingBuffer

/-- Unfolding of write in terms of space(): the body of write() recomputes the
exact expression of space(), so this restatement is definitional. -/
theorem write_eq {Capacity : Nat} (s : LockFreeRingBuffer Capacity) (data : List Nat) :
    write s data =
      if data.length = 0 then (0, s)
      else if min data.length (space s) = 0 then (0, s)
      else
        (min data.length (space s),
          ⟨(s.head_ + min data.length (space s)) % W64, s.tail_,
            if min (min data.length (space s)) (Capacity - (s.head_ &&& (Capacity - 1)))
                < min data.length (space s)
            then memcpyIn
                  (memcpyIn s.buffer_ (s.head_ &&& (Capacity - 1))
                    (data.take (min (min data.length (space s))
                      (Capacity - (s.head_ &&& (Capacity - 1))))))
                  0 ((data.take (min data.length (space s))).drop
                      (min (min data.length (space s))
                        (Capacity - (s.head_ &&& (Capacity - 1)))))
            else memcpyIn s.buffer_ (s.head_ &&& (Capacity - 1))
                  (data.take (min (min data.length (space s))
                    (Capacity - (s.head_ &&& (Capacity - 1)))))⟩) := rfl

/-- Unfolding of read in terms of available(): the body of read() recomputes the
exact expression of available(), so this restatement is definitional. -/
theorem read_eq {Capacity : Nat} (s : LockFreeRingBuffer Capacity) (size : Nat) :
    read s size =
      if size = 0 then ([], s)
      else if min size (available s) = 0 then ([], s)
      else
        ((List.range (min (min size (available s))
              (Capacity - (s.tail_ &&& (Capacity - 1))))).map
            (fun i => s.buffer_ ((s.tail_ &&& (Capacity - 1)) + i)) ++
         (List.range (min size (available s) -
              min (min size (available s)) (Capacity - (s.tail_ &&& (Capacity - 1))))).map
            (fun i => s.buffer_ i),
         ⟨s.head_, (s.tail_ + min size (available s)) % W64, s.buffer_⟩) := rfl

end RingSpec

section WriteSpec

open LockFreeRingBuffer

/-- Functional specification of write(): it accepts exactly
min(size, Capacity - 1 - available()) bytes, appends exactly those bytes to the
logical content, and touches no byte that was buffered and not yet read. -/
theorem write_spec {k : Nat} (hk : k ≤ 64) (s : LockFreeRingBuffer (2 ^ k))
    (data : List Nat) :
    (write s data).1 = min data.length (2 ^ k - 1 - available s) ∧
    contents (write s data).2 = contents s ++ data.take (write s data).1 := by
  have hCpos : 0 < 2 ^ k := by positivity
  have hsum := available_add_space hk s
  have hsp : space s = 2 ^ k - 1 - available s := by omega
  rw [write_eq]
  by_cases h0 : data.length = 0
  · rw [if_pos h0]
    constructor
    · simp [h0]
    · simp
  · rw [if_neg h0]
    by_cases hm : min data.length (space s) = 0
    · rw [if_pos hm]
      constructor
      · rw [← hsp]
        exact hm.symm
      · show contents s = contents s ++ data.take (0, s).1
        simp
    · rw [if_neg hm]
      set a := available s with ha
      set T := min data.length (space s) with hT
      set H := s.head_ &&& (2 ^ k - 1) with hHdef
      have hHm : H = s.head_ % 2 ^ k := by rw [hHdef, mask_mod]
      have hHlt : H < 2 ^ k := by rw [hHm]; exact Nat.mod_lt _ hCpos
      have hT1 : T ≤ space s := by rw [hT]; exact min_le_right _ _
      have hT2 : T ≤ data.length := by rw [hT]; exact min_le_left _ _
      have hTa : T ≤ 2 ^ k - 1 - a := by omega
      have haC : a < 2 ^ k := by omega
      have hTC : T ≤ 2 ^ k - 1 := by omega
      have hmodadd : ∀ j : Nat, (H + j) % 2 ^ k = (s.head_ + j) % 2 ^ k := by
        intro j
        rw [hHm, Nat.mod_add_mod]
      constructor
      · show T = min data.length (2 ^ k - 1 - a)
        rw [hT, hsp]
      · have havail' :
            available (⟨(s.head_ + T) % W64, s.tail_,
              if min T (2 ^ k - H) < T
              then memcpyIn (memcpyIn s.buffer_ H (data.take (min T (2 ^ k - H)))) 0
                    ((data.take T).drop (min T (2 ^ k - H)))
              else memcpyIn s.buffer_ H (data.take (min T (2 ^ k - H)))⟩ :
                LockFreeRingBuffer (2 ^ k)) = a + T := by
          rw [available_eq hk]
          show ((((s.head_ + T) % W64 : Nat) : ZMod (2 ^ k)) - (s.tail_ : ZMod (2 ^ k))).val
            = a + T
          rw [natCast_mod_W64 hk]
          push_cast
          rw [head_cast_eq hk s]
          have he : (s.tail_ : ZMod (2 ^ k)) + (a : ZMod (2 ^ k)) + (T : ZMod (2 ^ k))
              - (s.tail_ : ZMod (2 ^ k)) = ((a + T : Nat) : ZMod (2 ^ k)) := by
            push_cast
            ring
          rw [he, ZMod.val_natCast, Nat.mod_eq_of_lt (by omega)]
        apply List.ext_getElem
        · simp only [contents_length, havail', List.length_append, List.length_take]
          omega
        · intro i h1 h2
          have hi : i < a + T := by
            rw [contents_length, havail'] at h1
            exact h1
          simp only [contents, List.getElem_map, List.getElem_range]
          show (if min T (2 ^ k - H) < T
              then memcpyIn (memcpyIn s.buffer_ H (data.take (min T (2 ^ k - H)))) 0
                    ((data.take T).drop (min T (2 ^ k - H)))
              else memcpyIn s.buffer_ H (data.take (min T (2 ^ k - H))))
              ((s.tail_ + i) % 2 ^ k)
            = (contents s ++ data.take T)[i]
          by_cases hia : i < a
          · rw [List.getElem_append_left (by rw [contents_length, ← ha]; exact hia)]
            simp only [contents, List.getElem_map, List.getElem_range]
            apply twoPartCopy_old s.buffer_ data H T hHlt hTC hT2
              (Nat.mod_lt _ hCpos)
            intro j hj heq
            rw [hmodadd j] at heq
            have hcast := cast_eq_of_nat_mod_eq heq
            push_cast at hcast
            rw [head_cast_eq hk s] at hcast
            have hne : ((a + j : Nat) : ZMod (2 ^ k)) = ((i : Nat) : ZMod (2 ^ k)) := by
              push_cast
              linear_combination hcast
            have hmod := nat_mod_eq_of_cast_eq hne
            rw [Nat.mod_eq_of_lt (by omega), Nat.mod_eq_of_lt (by omega)] at hmod
            omega
          · rw [List.getElem_append_right (by rw [contents_length, ← ha]; omega)]
            have hja : i - a < T := by omega
            have hpos : (s.tail_ + i) % 2 ^ k = (H + (i - a)) % 2 ^ k := by
              rw [hmodadd (i - a)]
              apply nat_mod_eq_of_cast_eq
              push_cast [Nat.cast_sub (Nat.le_of_not_lt hia)]
              rw [head_cast_eq hk s]
              ring
            rw [hpos, twoPartCopy_new s.buffer_ data H T hHlt hTC hT2 hja,
              getD_of_lt data (by omega), List.getElem_take]
            simp only [contents_length, ← ha]

end WriteSpec

section ReadSpec

open LockFreeRingBuffer

/-- Functional specification of read(): it returns exactly the first
min(size, available()) logical bytes, in order, and removes exactly those bytes
from the logical content without touching the byte array. -/
theorem read_spec {k : Nat} (hk : k ≤ 64) (s : LockFreeRingBuffer (2 ^ k))
    (size : Nat) :
    (read s size).1 = (contents s).take size ∧
    contents (read s size).2 = (contents s).drop size := by
  have hCpos : 0 < 2 ^ k := by positivity
  have hsum := available_add_space hk s
  rw [read_eq]
  by_cases h0 : size = 0
  · rw [if_pos h0]
    constructor
    · simp [h0]
    · simp [h0]
  · rw [if_neg h0]
    by_cases hm : min size (available s) = 0
    · rw [if_pos hm]
      have ha0 : available s = 0 := by omega
      have hc : contents s = [] := by rw [contents, ha0]; simp
      constructor
      · show ([] : List Nat) = (contents s).take size
        rw [hc, List.take_nil]
      · show contents s = (contents s).drop size
        rw [hc, List.drop_nil]
    · rw [if_neg hm]
      set a := available s with ha
      set T := min size a with hT
      set Ti := s.tail_ &&& (2 ^ k - 1) with hTidef
      have hTim : Ti = s.tail_ % 2 ^ k := by rw [hTidef, mask_mod]
      have hTilt : Ti < 2 ^ k := by rw [hTim]; exact Nat.mod_lt _ hCpos
      have hTs : T ≤ size := by rw [hT]; exact min_le_left _ _
      have hTa : T ≤ a := by rw [hT]; exact min_le_right _ _
      have haC : a < 2 ^ k := by omega
      constructor
      · apply List.ext_getElem
        · simp only [List.length_append, List.length_map, List.length_range, List.length_take, contents_length, ← ha]
          omega
        · intro i h1 h2
          have hiT : i < T := by
            simp only [List.length_append, List.length_map, List.length_range] at h1
            omega
          rw [List.getElem_take]
          simp only [contents, List.getElem_map, List.getElem_range]
          by_cases hiF : i < min T (2 ^ k - Ti)
          · rw [List.getElem_append_left (by simp only [List.length_map, List.length_range]; exact hiF)]
            simp only [List.getElem_map, List.getElem_range]
            congr 1
            symm
            rw [← Nat.mod_add_mod, ← hTim, Nat.mod_eq_of_lt (by omega)]
          · rw [List.getElem_append_right (by simp only [List.length_map, List.length_range]; omega)]
            simp only [List.getElem_map, List.getElem_range, List.length_map, List.length_range]
            congr 1
            have hF : min T (2 ^ k - Ti) = 2 ^ k - Ti := by omega
            symm
            rw [← Nat.mod_add_mod, ← hTim, show Ti + i = 2 ^ k + (i - min T (2 ^ k - Ti)) from by omega, Nat.add_mod_left, Nat.mod_eq_of_lt (by omega)]
      · have havail'' :
            available (⟨s.head_, (s.tail_ + T) % W64, s.buffer_⟩ :
              LockFreeRingBuffer (2 ^ k)) = a - T := by
          rw [available_eq hk]
          show ((s.head_ : ZMod (2 ^ k)) - (((s.tail_ + T) % W64 : Nat) : ZMod (2 ^ k))).val = a - T
          rw [natCast_mod_W64 hk]
          push_cast
          rw [head_cast_eq hk s]
          have he : (s.tail_ : ZMod (2 ^ k)) + ((a : Nat) : ZMod (2 ^ k)) - ((s.tail_ : ZMod (2 ^ k)) + ((T : Nat) : ZMod (2 ^ k))) = ((a : Nat) : ZMod (2 ^ k)) - ((T : Nat) : ZMod (2 ^ k)) := by ring
          rw [he, val_sub_nat hCpos _ T (by rw [ZMod.val_natCast, Nat.mod_eq_of_lt haC]; exact hTa), ZMod.val_natCast, Nat.mod_eq_of_lt haC]
        apply List.ext_getElem
        · simp only [contents_length, havail'', List.length_drop, ← ha]
          omega
        · intro i h1 h2
          have hiA : i < a - T := by
            rw [contents_length] at h1
            rw [havail''] at h1
            exact h1
          have hTsize : T = size := by omega
          simp only [contents, List.getElem_map, List.getElem_range, List.getElem_drop]
          congr 1
          rw [mod_W64_add_mod hk, hTsize, Nat.add_assoc]

end ReadSpec

section Traces

open LockFreeRingBuffer

theorem available_init (Capacity : Nat) : available (init Capacity) = 0 := by
  simp [available, init, usub, Nat.mod_self]

theorem contents_init (Capacity : Nat) : contents (init Capacity) = [] := by
  rw [contents, available_init]
  simp

/-- One producer/consumer call: a write of a byte sequence or a read request of
a byte count. -/
inductive RingOp where
  | write (data : List Nat) : RingOp
  | read (size : Nat) : RingOp

/-- Sequential execution of interleaved write/read calls (single producer /
single consumer pair, calls totally ordered).  Returns (concatenation of all
bytes returned by read, concatenation of all bytes accepted by write, final
state). -/
def runTrace {Capacity : Nat} (s : LockFreeRingBuffer Capacity) :
    List RingOp → List Nat × List Nat × LockFreeRingBuffer Capacity
  | [] => ([], [], s)
  | RingOp.write data :: ops =>
      let w := LockFreeRingBuffer.write s data
      let r := runTrace w.2 ops
      (r.1, data.take w.1 ++ r.2.1, r.2.2)
  | RingOp.read size :: ops =>
      let rd := LockFreeRingBuffer.read s size
      let r := runTrace rd.2 ops
      (rd.1 ++ r.1, r.2.1, r.2.2)

/-- Trace invariant: bytes read so far, followed by the unread logical content,
equal the initial content followed by all bytes accepted so far. -/
theorem runTrace_inv {k : Nat} (hk : k ≤ 64) (ops : List RingOp) :
    ∀ s : LockFreeRingBuffer (2 ^ k),
      (runTrace s ops).1 ++ contents (runTrace s ops).2.2
        = contents s ++ (runTrace s ops).2.1 := by
  induction ops with
  | nil => intro s; simp [runTrace]
  | cons op ops ih =>
    intro s
    cases op with
    | write data =>
      have hw := write_spec hk s data
      simp only [runTrace]
      rw [ih (LockFreeRingBuffer.write s data).2, hw.2]
      simp [List.append_assoc]
    | read size =>
      have hr := read_spec hk s size
      simp only [runTrace]
      rw [List.append_assoc, ih (LockFreeRingBuffer.read s size).2, hr.2, hr.1,
        ← List.append_assoc, List.take_append_drop]

end Traces

/-- Claim C1: for every power-of-two Capacity (2^k with k ≤ 64, i.e. every
power-of-two capacity expressible in size_t) and every state of
LockFreeRingBuffer reachable by any sequence of interleaved write and read
calls from a single producer/consumer pair, available() + space() equals
Capacity - 1. -/
theorem claim_C1_available_add_space (k : Nat) (hk : k ≤ 64) (ops : List RingOp) :
    LockFreeRingBuffer.available ((runTrace (LockFreeRingBuffer.init (2 ^ k)) ops).2.2)
      + LockFreeRingBuffer.space ((runTrace (LockFreeRingBuffer.init (2 ^ k)) ops).2.2)
      = 2 ^ k - 1 :=
  available_add_space hk _

/-- Witness for claim C1 at Capacity 8 with an interleaved write/read sequence. -/
theorem claim_C1_witness :
    (3 ≤ 64) ∧
    LockFreeRingBuffer.available
        ((runTrace (LockFreeRingBuffer.init (2 ^ 3))
          [RingOp.write [1, 2, 3], RingOp.read 2]).2.2)
      + LockFreeRingBuffer.space
        ((runTrace (LockFreeRingBuffer.init (2 ^ 3))
          [RingOp.write [1, 2, 3], RingOp.read 2]).2.2)
      = 2 ^ 3 - 1 :=
  ⟨by decide, claim_C1_available_add_space 3 (by decide) _⟩

/-- Claim C2: for every sequence of write and read calls executed sequentially
by a single producer/consumer pair, the concatenation of all bytes returned by
read is a prefix of the concatenation of all bytes accepted by write: every
returned byte was previously written and not yet read, bytes come back in
exactly FIFO order, and no byte is returned twice. -/
theorem claim_C2_fifo_order (k : Nat) (hk : k ≤ 64) (ops : List RingOp) :
    (runTrace (LockFreeRingBuffer.init (2 ^ k)) ops).1
      <+: (runTrace (LockFreeRingBuffer.init (2 ^ k)) ops).2.1 := by
  have h := runTrace_inv hk ops (LockFreeRingBuffer.init (2 ^ k))
  rw [contents_init] at h
  exact ⟨LockFreeRingBuffer.contents
    (runTrace (LockFreeRingBuffer.init (2 ^ k)) ops).2.2, by simpa using h⟩

/-- Witness for claim C2 at Capacity 8 with an interleaved write/read sequence. -/
theorem claim_C2_witness :
    (3 ≤ 64) ∧
    (runTrace (LockFreeRingBuffer.init (2 ^ 3))
        [RingOp.write [1, 2, 3], RingOp.read 2, RingOp.write [4, 5]]).1
      <+: (runTrace (LockFreeRingBuffer.init (2 ^ 3))
        [RingOp.write [1, 2, 3], RingOp.read 2, RingOp.write [4, 5]]).2.1 :=
  ⟨by decide, claim_C2_fifo_order 3 (by decide) _⟩

/-- Claim C3: write(data, n) with nonempty data (n > 0, data non-null) returns
min(n, free) with free = Capacity - 1 - available(); in particular a single
write of Capacity bytes into an empty buffer returns Capacity - 1; and the
bytes beyond the returned count are discarded while the already-buffered
not-yet-read bytes are preserved unchanged (the new logical content is the old
one extended exactly by the accepted prefix of data). -/
theorem claim_C3_write_truncates (k : Nat) (hk : k ≤ 64)
    (s : LockFreeRingBuffer (2 ^ k)) (data : List Nat) (hdata : data ≠ []) :
    (LockFreeRingBuffer.write s data).1
        = min data.length (2 ^ k - 1 - LockFreeRingBuffer.available s) ∧
    LockFreeRingBuffer.contents (LockFreeRingBuffer.write s data).2
        = LockFreeRingBuffer.contents s
          ++ data.take (LockFreeRingBuffer.write s data).1 ∧
    (data.length = 2 ^ k → LockFreeRingBuffer.available s = 0 →
      (LockFreeRingBuffer.write s data).1 = 2 ^ k - 1) := by
  obtain ⟨h1, h2⟩ := write_spec hk s data
  refine ⟨h1, h2, ?_⟩
  intro hlen hav
  rw [h1, hlen, hav]
  omega

/-- Witness for claim C3: Capacity 4, a write of exactly Capacity bytes into
the empty buffer. -/
theorem claim_C3_witness :
    ([9, 9, 9, 9] ≠ ([] : List Nat)) ∧
    ((LockFreeRingBuffer.write (LockFreeRingBuffer.init (2 ^ 2)) [9, 9, 9, 9]).1
        = min ([9, 9, 9, 9] : List Nat).length
            (2 ^ 2 - 1 - LockFreeRingBuffer.available (LockFreeRingBuffer.init (2 ^ 2))) ∧
      LockFreeRingBuffer.contents
          (LockFreeRingBuffer.write (LockFreeRingBuffer.init (2 ^ 2)) [9, 9, 9, 9]).2
        = LockFreeRingBuffer.contents (LockFreeRingBuffer.init (2 ^ 2))
          ++ [9, 9, 9, 9].take
              (LockFreeRingBuffer.write (LockFreeRingBuffer.init (2 ^ 2)) [9, 9, 9, 9]).1 ∧
      (([9, 9, 9, 9] : List Nat).length = 2 ^ 2 →
        LockFreeRingBuffer.available (LockFreeRingBuffer.init (2 ^ 2)) = 0 →
        (LockFreeRingBuffer.write (LockFreeRingBuffer.init (2 ^ 2)) [9, 9, 9, 9]).1
          = 2 ^ 2 - 1)) :=
  ⟨by decide, claim_C3_write_truncates 2 (by decide) _ _ (by decide)⟩

section AudioPlayerNegotiation

/-- Standard-rate ladder of AudioPlayer.cpp line 508:
static const unsigned int standardRates[] = {192000, 176400, 96000, 88200, 48000, 44100}. -/
def standardRates : List Nat := [192000, 176400, 96000, 88200, 48000, 44100]

/-- Negotiated DAC result: native-offload flag and chosen output sample rate
(AudioPlayer.cpp decodeLoop, DAC capability probe, lines 471-523). -/
structure DacNegotiation where
  nativeOffload : Bool
  outSampleRate : Nat
deriving DecidableEq, Repr

/-- DAC rate negotiation of AudioPlayer::decodeLoop (AudioPlayer.cpp lines
474-519): cap the source rate at 192000; if the capped rate exceeds the DAC
maximum, clear nativeOffload and pick the first (highest) standard rate sr
with sr <= dacMaxRate and sr >= dacMinRate, falling back to 44100 if none
matches; otherwise keep the capped source rate with nativeOffload set.
(The subsequent snd_pcm_hw_params_set_rate_near adjustment is outside the
negotiation decision modelled here.) -/
def negotiateDacRate (srcSampleRate dacMaxRate dacMinRate : Nat) : DacNegotiation :=
  let outSampleRate := if srcSampleRate > 192000 then 192000 else srcSampleRate
  if outSampleRate > dacMaxRate then
    { nativeOffload := false,
      outSampleRate :=
        ((standardRates.find? (fun sr => decide (sr ≤ dacMaxRate)
          && decide (dacMinRate ≤ sr))).getD 44100) }
  else
    { nativeOffload := true, outSampleRate := outSampleRate }

/-- Counterexample to claim C4: with DAC max rate 48000, DAC min rate 44100
(at or below 44100 as the claim requires) and source rate 192000, the code
does NOT negotiate output rate 44100 — the ladder scan stops at 48000, the
highest standard rate within the DAC range. -/
theorem claim_C4_counterexample :
    negotiateDacRate 192000 48000 44100
      ≠ { nativeOffload := false, outSampleRate := 44100 } := by
  decide

/-- Claim C4 as amended: with DAC max 96000 and source 48000 the result is
native-offload with rate 48000 (any DAC min); with DAC max 48000 (min at or
below 44100) and source 192000 the result is no offload with rate 48000 — the
highest standard-ladder rate within the DAC's supported range — not 44100. -/
theorem claim_C4_negotiation_amended (dacMinRate : Nat) (hmin : dacMinRate ≤ 44100) :
    negotiateDacRate 48000 96000 dacMinRate
        = { nativeOffload := true, outSampleRate := 48000 } ∧
    negotiateDacRate 192000 48000 dacMinRate
        = { nativeOffload := false, outSampleRate := 48000 } := by
  constructor
  · rfl
  · have h1 : decide (dacMinRate ≤ 48000) = true := by
      simp only [decide_eq_true_eq]
      omega
    simp [negotiateDacRate, standardRates, List.find?, h1]

/-- Witness for amended claim C4 at DAC min rate 8000. -/
theorem claim_C4_witness :
    (8000 ≤ 44100) ∧
    (negotiateDacRate 48000 96000 8000
        = { nativeOffload := true, outSampleRate := 48000 } ∧
      negotiateDacRate 192000 48000 8000
        = { nativeOffload := false, outSampleRate := 48000 }) :=
  ⟨by decide, claim_C4_negotiation_amended 8000 (by decide)⟩

end AudioPlayerNegotiation

section DrmBufferLifecycle

/-- Buffer-retention state of FFmpegDrmVideoOutput
(constructor initialization, FFmpegDrmVideoOutput.cpp line 193:
displayedFrame_(nullptr), previousDisplayedFrame_(nullptr), currentFbId_(0),
previousFbId_(0), currentHandle_(0), previousHandle_(0)).
Cloned AVFrames, framebuffer ids and GEM handles of the i-th successful
zero-copy submission are all identified by the submission index i (1-based);
0 / none is the null sentinel exactly as in the source. -/
structure DrmBufferState where
  displayedFrame_ : Option Nat
  previousDisplayedFrame_ : Option Nat
  currentFbId_ : Nat
  previousFbId_ : Nat
  currentHandle_ : Nat
  previousHandle_ : Nat
deriving DecidableEq, Repr

/-- Resources released during one successful zero-copy displayFrame call. -/
structure DrmStepLog where
  freedFrames : List Nat
  removedFbs : List Nat
  closedHandles : List Nat
deriving DecidableEq, Repr

/-- Buffer-lifecycle effect of one successful zero-copy submission in
FFmpegDrmVideoOutput::displayFrame (FFmpegDrmVideoOutput.cpp lines 944-977),
executed after drmModeSetPlane succeeded for the new framebuffer:
free previousDisplayedFrame_ if non-null (lines 944-948), rotate the frame
references with a clone of the new frame (lines 950-959), remove
previousFbId_ / close previousHandle_ if non-zero (lines 961-972), and
rotate the fb/handle pairs (lines 974-977).  av_frame_clone is modelled as
succeeding (its failure is logged and only skips retention of the new frame). -/
def displayFrameStep (s : DrmBufferState) (frameId : Nat) : DrmBufferState × DrmStepLog :=
  let freed := match s.previousDisplayedFrame_ with
    | some f => [f]
    | none => []
  let removed := if s.previousFbId_ ≠ 0 then [s.previousFbId_] else []
  let closed := if s.previousHandle_ ≠ 0 then [s.previousHandle_] else []
  ({ displayedFrame_ := some frameId,
     previousDisplayedFrame_ := s.displayedFrame_,
     currentFbId_ := frameId,
     previousFbId_ := s.currentFbId_,
     currentHandle_ := frameId,
     previousHandle_ := s.currentHandle_ },
   { freedFrames := freed, removedFbs := removed, closedHandles := closed })

/-- State as constructed (FFmpegDrmVideoOutput.cpp line 193). -/
def drmInit : DrmBufferState := ⟨none, none, 0, 0, 0, 0⟩

/-- State after n consecutive successful zero-copy submissions (submission i
carries identifier i, 1-based). -/
def drmRun : Nat → DrmBufferState
  | 0 => drmInit
  | n + 1 => (displayFrameStep (drmRun n) (n + 1)).1

/-- Resources released during submission number kk (1-based). -/
def drmStepLog (kk : Nat) : DrmStepLog := (displayFrameStep (drmRun (kk - 1)) kk).2

/-- Cloned decoded frames currently retained. -/
def retainedFrames (s : DrmBufferState) : List Nat :=
  s.displayedFrame_.toList ++ s.previousDisplayedFrame_.toList

/-- Framebuffer objects currently retained (0 = none, as in the source). -/
def retainedFramebuffers (s : DrmBufferState) : List Nat :=
  (if s.currentFbId_ ≠ 0 then [s.currentFbId_] else [])
    ++ (if s.previousFbId_ ≠ 0 then [s.previousFbId_] else [])

/-- GEM handles currently retained (0 = none, as in the source). -/
def retainedGemHandles (s : DrmBufferState) : List Nat :=
  (if s.currentHandle_ ≠ 0 then [s.currentHandle_] else [])
    ++ (if s.previousHandle_ ≠ 0 then [s.previousHandle_] else [])

theorem drmRun_eq (n : Nat) :
    drmRun n = { displayedFrame_ := if n = 0 then none else some n,
                 previousDisplayedFrame_ := if n ≤ 1 then none else some (n - 1),
                 currentFbId_ := n, previousFbId_ := n - 1,
                 currentHandle_ := n, previousHandle_ := n - 1 } := by
  induction n with
  | zero => rfl
  | succ m ih =>
    rcases Nat.eq_zero_or_pos m with hm | hm
    · subst hm; rfl
    · simp only [drmRun, displayFrameStep, ih]
      have h1 : ¬ m = 0 := by omega
      have h2 : ¬ m + 1 ≤ 1 := by omega
      simp [h1, h2]

theorem drmStepLog_eq (kk : Nat) (hkk : 1 ≤ kk) :
    drmStepLog kk = { freedFrames := if kk ≤ 2 then [] else [kk - 2],
                      removedFbs := if kk ≤ 2 then [] else [kk - 2],
                      closedHandles := if kk ≤ 2 then [] else [kk - 2] } := by
  rw [drmStepLog, drmRun_eq]
  by_cases h2 : kk ≤ 2
  · have ha : kk - 1 ≤ 1 := by omega
    have hb : kk - 1 - 1 = 0 := by omega
    simp [displayFrameStep, ha, hb, h2]
  · have ha : ¬ kk - 1 ≤ 1 := by omega
    have hb : kk - 1 - 1 ≠ 0 := by omega
    have hc : kk - 1 - 1 = kk - 2 := by omega
    simp [displayFrameStep, ha, hb, hc, h2]
    omega

/-- Claim C5: across any run of N consecutive successful zero-copy (DRM Prime)
frame submissions, at most two cloned decoded frames (displayedFrame_ and
previousDisplayedFrame_) and at most two framebuffer/GEM-handle pairs are
simultaneously retained, and the cloned frame, framebuffer and GEM handle of
submission i are released exactly during submission i + 2 (hence only after
submission i + 2 has been made) and at no other step. -/
theorem claim_C5_zero_copy_retention :
    (∀ n : Nat, (retainedFrames (drmRun n)).length ≤ 2
      ∧ (retainedFramebuffers (drmRun n)).length ≤ 2
      ∧ (retainedGemHandles (drmRun n)).length ≤ 2)
    ∧ (∀ i kk : Nat, 1 ≤ kk →
        ((i ∈ (drmStepLog kk).freedFrames ↔ (kk = i + 2 ∧ 1 ≤ i))
          ∧ (i ∈ (drmStepLog kk).removedFbs ↔ (kk = i + 2 ∧ 1 ≤ i))
          ∧ (i ∈ (drmStepLog kk).closedHandles ↔ (kk = i + 2 ∧ 1 ≤ i)))) := by
  constructor
  · intro n
    refine ⟨?_, ?_, ?_⟩
    · rw [retainedFrames]
      rcases (drmRun n).displayedFrame_ <;> rcases (drmRun n).previousDisplayedFrame_ <;> simp
    · rw [retainedFramebuffers]
      split <;> split <;> simp
    · rw [retainedGemHandles]
      split <;> split <;> simp
  · intro i kk hkk
    rw [drmStepLog_eq kk hkk]
    by_cases h2 : kk ≤ 2
    · simp [h2]
      omega
    · simp [h2]
      omega

/-- Witness for claim C5: submission 3 releases exactly the resources of
submission 1. -/
theorem claim_C5_witness :
    (1 ≤ 3) ∧ (1 ∈ (drmStepLog 3).freedFrames ↔ (3 = 1 + 2 ∧ 1 ≤ 1)) :=
  ⟨by decide, (claim_C5_zero_copy_retention.2 1 3 (by decide)).1⟩

end DrmBufferLifecycle

section RtAudioOutputModel

open LockFreeRingBuffer

/-- State of RtAudioOutput (RtAudioOutput.hpp lines 63-81): the stopping flag,
the embedded LockFreeRingBuffer<262144> audioBuffer_, and the negotiated
sampleSize_ (bits) and channelCount_.  The RtAudio device handle, mutex and
sample rate do not influence the modelled operations. -/
structure RtAudioOutputState where
  isStopping_ : Bool
  audioBuffer_ : LockFreeRingBuffer 262144
  sampleSize_ : Nat
  channelCount_ : Nat

/-- RtAudioOutput::audioBufferReadHandler (RtAudioOutput.cpp lines 246-293):
the real-time callback.  If stopping, fill the output with
nBufferFrames * sizeof(int16_t) * 2 zero bytes and return 1 (stop the
stream); otherwise read up to bufferSize =
nBufferFrames * (sampleSize_ / 8) * channelCount_ bytes from the ring buffer
and zero-fill the remainder, returning 0 (keep the stream alive).
Returns (bytes placed in outputBuffer, status code, new state). -/
def audioBufferReadHandler (s : RtAudioOutputState) (nBufferFrames : Nat) :
    List Nat × Nat × RtAudioOutputState :=
  if s.isStopping_ then
    (List.replicate (nBufferFrames * 2 * 2) 0, 1, s)
  else
    let bufferSize := nBufferFrames * (s.sampleSize_ / 8) * s.channelCount_
    let r := LockFreeRingBuffer.read s.audioBuffer_ bufferSize
    (r.1 ++ List.replicate (bufferSize - r.1.length) 0, 0,
      { s with audioBuffer_ := r.2 })

/-- RtAudioOutput::write (RtAudioOutput.cpp lines 131-144): early exit when
isStopping_ is set, otherwise push the bytes into the ring buffer. -/
def rtAudioOutputWrite (s : RtAudioOutputState) (buffer : List Nat) :
    RtAudioOutputState :=
  if s.isStopping_ then s
  else { s with audioBuffer_ := (LockFreeRingBuffer.write s.audioBuffer_ buffer).2 }

/-- First statement of RtAudioOutput::stop (RtAudioOutput.cpp line 177):
isStopping_.store(true) before acquiring the lock. -/
def rtAudioOutputSetStopping (s : RtAudioOutputState) : RtAudioOutputState :=
  { s with isStopping_ := true }

/-- Effect of the remainder of RtAudioOutput::stop() (RtAudioOutput.cpp lines
179-206) on the component state, as written: it suspends and closes the
hardware stream (external RtAudio calls) and then invokes
audioBuffer_.close().  close() is not an operation of LockFreeRingBuffer — the
declared type of audioBuffer_ (RtAudioOutput.hpp line 76) — but a leftover of
an earlier QIODevice-based buffer (compare audioBuffer_.open(QIODevice::ReadWrite)
in open(), RtAudioOutput.cpp line 128).  In particular stop() never calls
LockFreeRingBuffer::clear(), and no ring-buffer operation invoked by stop()
modifies head_ or tail_, so the ring-buffer effect of stop() is the identity. -/
def rtAudioOutputStopRing (s : RtAudioOutputState) : RtAudioOutputState :=
  rtAudioOutputSetStopping s

/-- Claim C6: whenever the real-time callback runs while not stopping and the
ring buffer holds fewer bytes than the requested
bufferSize = nBufferFrames * (sampleSize_ / 8) * channelCount_, the output
buffer receives exactly the buffered bytes followed by zero bytes up to
bufferSize (silence on underrun), and the callback returns 0, the status that
keeps the stream running. -/
theorem claim_C6_underrun_zero_fill (s : RtAudioOutputState) (nBufferFrames : Nat)
    (hstop : s.isStopping_ = false)
    (hunder : LockFreeRingBuffer.available s.audioBuffer_
      < nBufferFrames * (s.sampleSize_ / 8) * s.channelCount_) :
    (audioBufferReadHandler s nBufferFrames).1
        = LockFreeRingBuffer.contents s.audioBuffer_
          ++ List.replicate (nBufferFrames * (s.sampleSize_ / 8) * s.channelCount_
              - LockFreeRingBuffer.available s.audioBuffer_) 0
    ∧ (audioBufferReadHandler s nBufferFrames).1.length
        = nBufferFrames * (s.sampleSize_ / 8) * s.channelCount_
    ∧ (audioBufferReadHandler s nBufferFrames).2.1 = 0 := by
  have h18 : (262144 : Nat) = 2 ^ 18 := by norm_num
  have hspec := read_spec (k := 18) (by norm_num) s.audioBuffer_
    (nBufferFrames * (s.sampleSize_ / 8) * s.channelCount_)
  have hclen : (LockFreeRingBuffer.contents s.audioBuffer_).length
      = LockFreeRingBuffer.available s.audioBuffer_ := contents_length _
  have hall : (LockFreeRingBuffer.contents s.audioBuffer_).take
      (nBufferFrames * (s.sampleSize_ / 8) * s.channelCount_)
      = LockFreeRingBuffer.contents s.audioBuffer_ :=
    List.take_of_length_le (by omega)
  simp only [audioBufferReadHandler, hstop, Bool.false_eq_true, if_false]
  refine ⟨?_, ?_, ?_⟩
  · rw [hspec.1, hall, hclen]
  · rw [hspec.1, hall]
    simp only [List.length_append, List.length_replicate, hclen]
    omega
  · trivial

/-- Witness for claim C6: 5 buffered bytes, request of 16 bytes. -/
theorem claim_C6_witness :
    ((⟨false, ⟨5, 0, fun _ => 0⟩, 16, 2⟩ : RtAudioOutputState).isStopping_ = false) ∧
    (LockFreeRingBuffer.available
        (⟨false, ⟨5, 0, fun _ => 0⟩, 16, 2⟩ : RtAudioOutputState).audioBuffer_
      < 4 * (16 / 8) * 2) ∧
    ((audioBufferReadHandler (⟨false, ⟨5, 0, fun _ => 0⟩, 16, 2⟩ : RtAudioOutputState) 4).1
        = LockFreeRingBuffer.contents
            (⟨false, ⟨5, 0, fun _ => 0⟩, 16, 2⟩ : RtAudioOutputState).audioBuffer_
          ++ List.replicate (4 * (16 / 8) * 2
              - LockFreeRingBuffer.available
                  (⟨false, ⟨5, 0, fun _ => 0⟩, 16, 2⟩ : RtAudioOutputState).audioBuffer_) 0
      ∧ (audioBufferReadHandler (⟨false, ⟨5, 0, fun _ => 0⟩, 16, 2⟩ : RtAudioOutputState) 4).1.length
          = 4 * (16 / 8) * 2
      ∧ (audioBufferReadHandler (⟨false, ⟨5, 0, fun _ => 0⟩, 16, 2⟩ : RtAudioOutputState) 4).2.1 = 0) :=
  ⟨rfl, by decide, claim_C6_underrun_zero_fill _ 4 rfl (by decide)⟩

/-- Claim C7 (code_bug evidence): at the failing input — a component whose ring
buffer holds 4 unread bytes — the buffer-state effect of stop() as written
(rtAudioOutputStopRing: close() is not a LockFreeRingBuffer operation and
clear() is never called) leaves available() = 4, not 0: the ring buffer is not
emptied by stop(). -/
theorem claim_C7_stop_does_not_clear :
    LockFreeRingBuffer.available
        (rtAudioOutputStopRing
          (⟨false, ⟨4, 0, fun _ => 0⟩, 16, 2⟩ : RtAudioOutputState)).audioBuffer_ = 4
    ∧ LockFreeRingBuffer.available
        (rtAudioOutputStopRing
          (⟨false, ⟨4, 0, fun _ => 0⟩, 16, 2⟩ : RtAudioOutputState)).audioBuffer_ ≠ 0 := by
  constructor
  · decide
  · decide

/-- Claim C10: once stop() has set the isStopping_ flag, every subsequent
write(timestamp, buffer) call returns immediately without touching the ring
buffer — regardless of how much free space the buffer has — leaving the
component state unchanged. -/
theorem claim_C10_write_after_stopping (s : RtAudioOutputState) (buffer : List Nat)
    (hstop : s.isStopping_ = true) :
    rtAudioOutputWrite s buffer = s := by
  simp [rtAudioOutputWrite, hstop]

/-- Witness for claim C10: a stopping component with plenty of free space
discards a 3-byte write. -/
theorem claim_C10_witness :
    ((⟨true, ⟨0, 0, fun _ => 0⟩, 16, 2⟩ : RtAudioOutputState).isStopping_ = true) ∧
    rtAudioOutputWrite (⟨true, ⟨0, 0, fun _ => 0⟩, 16, 2⟩ : RtAudioOutputState) [1, 2, 3]
      = (⟨true, ⟨0, 0, fun _ => 0⟩, 16, 2⟩ : RtAudioOutputState) :=
  ⟨rfl, claim_C10_write_after_stopping _ [1, 2, 3] rfl⟩

end RtAudioOutputModel

section RtAudioInputModel

open LockFreeRingBuffer

/-- Chunk size requested by Android Auto (RtAudioInput.hpp lines 56-57). -/
def cChunkSize : Nat := 2056

/-- Outcome of a read(promise) request: the promise is rejected, resolved with
a byte chunk, or parked (stored in readPromise_ for the callback to fulfil). -/
inductive ReadOutcome where
  | rejected : ReadOutcome
  | resolved (data : List Nat) : ReadOutcome
  | parked : ReadOutcome
deriving DecidableEq

/-- State of RtAudioInput (RtAudioInput.hpp lines 42-54): activity flag,
stopping flag, data-available flag, whether a read promise is parked
(readPromise_ non-null — at most one can be stored), and the embedded
LockFreeRingBuffer<65536> buffer_. -/
structure RtAudioInputState where
  isActive_ : Bool
  isStopping_ : Bool
  dataAvailable_ : Bool
  readPromisePending_ : Bool
  buffer_ : LockFreeRingBuffer 65536

/-- RtAudioInput::read(promise) (RtAudioInput.cpp lines 42-72): reject when
inactive; reject when a promise is already parked; resolve immediately with
exactly cChunkSize bytes when buffer_.available() >= cChunkSize; otherwise
park the promise. -/
def rtAudioInputRead (s : RtAudioInputState) : ReadOutcome × RtAudioInputState :=
  if s.isActive_ = false then (ReadOutcome.rejected, s)
  else if s.readPromisePending_ then (ReadOutcome.rejected, s)
  else if cChunkSize ≤ LockFreeRingBuffer.available s.buffer_ then
    let r := LockFreeRingBuffer.read s.buffer_ cChunkSize
    (ReadOutcome.resolved r.1, { s with buffer_ := r.2 })
  else
    (ReadOutcome.parked, { s with readPromisePending_ := true })

/-- RtAudioInput::stop() (RtAudioInput.cpp lines 151-183): set isStopping_,
stop/close the hardware stream (external calls), clear isActive_, clear the
ring buffer, reset dataAvailable_, and reject and discard any parked promise.
Returns (new state, whether a parked promise was rejected). -/
def rtAudioInputStop (s : RtAudioInputState) : RtAudioInputState × Bool :=
  ({ isActive_ := false, isStopping_ := true, dataAvailable_ := false,
     readPromisePending_ := false,
     buffer_ := LockFreeRingBuffer.clear s.buffer_ },
   s.readPromisePending_)

/-- Claim C8: read(promise) rejects immediately when the input is inactive or a
request is already parked; resolves immediately with exactly cChunkSize bytes
when at least cChunkSize bytes are buffered; otherwise parks the promise.
Parking happens only from the no-pending state and a second request while one
is parked is rejected, so at most one parked request exists at any time
(readPromisePending_ is a single slot). -/
theorem claim_C8_read_protocol (s : RtAudioInputState) :
    (s.isActive_ = false → rtAudioInputRead s = (ReadOutcome.rejected, s))
    ∧ (s.isActive_ = true → s.readPromisePending_ = true →
        rtAudioInputRead s = (ReadOutcome.rejected, s))
    ∧ (s.isActive_ = true → s.readPromisePending_ = false →
        cChunkSize ≤ LockFreeRingBuffer.available s.buffer_ →
        ((rtAudioInputRead s).1
            = ReadOutcome.resolved (LockFreeRingBuffer.read s.buffer_ cChunkSize).1
          ∧ (LockFreeRingBuffer.read s.buffer_ cChunkSize).1.length = cChunkSize
          ∧ (rtAudioInputRead s).2.readPromisePending_ = false))
    ∧ (s.isActive_ = true → s.readPromisePending_ = false →
        LockFreeRingBuffer.available s.buffer_ < cChunkSize →
        rtAudioInputRead s
          = (ReadOutcome.parked, { s with readPromisePending_ := true })) := by
  refine ⟨?_, ?_, ?_, ?_⟩
  · intro ha
    simp [rtAudioInputRead, ha]
  · intro ha hp
    simp [rtAudioInputRead, ha, hp]
  · intro ha hp hav
    have hspec := read_spec (k := 16) (by norm_num) s.buffer_ cChunkSize
    have hclen : (LockFreeRingBuffer.contents s.buffer_).length
        = LockFreeRingBuffer.available s.buffer_ := contents_length _
    refine ⟨?_, ?_, ?_⟩
    · simp [rtAudioInputRead, ha, hp, hav]
    · rw [hspec.1, List.length_take]
      omega
    · simp [rtAudioInputRead, ha, hp, hav]
  · intro ha hp hav
    simp [rtAudioInputRead, ha, hp, Nat.not_le.mpr hav]

/-- Witness for claim C8: an active input with 3000 buffered bytes and no
parked request resolves a read immediately with exactly 2056 bytes. -/
theorem claim_C8_witness :
    ((⟨true, false, false, false, ⟨3000, 0, fun _ => 0⟩⟩ :
        RtAudioInputState).isActive_ = true) ∧
    ((⟨true, false, false, false, ⟨3000, 0, fun _ => 0⟩⟩ :
        RtAudioInputState).readPromisePending_ = false) ∧
    (cChunkSize ≤ LockFreeRingBuffer.available
        (⟨true, false, false, false, ⟨3000, 0, fun _ => 0⟩⟩ :
          RtAudioInputState).buffer_) ∧
    ((rtAudioInputRead (⟨true, false, false, false, ⟨3000, 0, fun _ => 0⟩⟩ :
          RtAudioInputState)).1
        = ReadOutcome.resolved
            (LockFreeRingBuffer.read
              (⟨true, false, false, false, ⟨3000, 0, fun _ => 0⟩⟩ :
                RtAudioInputState).buffer_ cChunkSize).1
      ∧ (LockFreeRingBuffer.read
            (⟨true, false, false, false, ⟨3000, 0, fun _ => 0⟩⟩ :
              RtAudioInputState).buffer_ cChunkSize).1.length = cChunkSize
      ∧ (rtAudioInputRead (⟨true, false, false, false, ⟨3000, 0, fun _ => 0⟩⟩ :
            RtAudioInputState)).2.readPromisePending_ = false) :=
  ⟨rfl, rfl, by decide,
    (claim_C8_read_protocol _).2.2.1 rfl rfl (by decide)⟩

/-- Claim C9: if a read request is parked when stop() is called, stop()
rejects that promise and discards it; after stop() no parked request remains
and the input's ring buffer is empty (available() = 0). -/
theorem claim_C9_stop_rejects_parked (s : RtAudioInputState)
    (hp : s.readPromisePending_ = true) :
    (rtAudioInputStop s).2 = true
    ∧ (rtAudioInputStop s).1.readPromisePending_ = false
    ∧ LockFreeRingBuffer.available (rtAudioInputStop s).1.buffer_ = 0 := by
  refine ⟨hp, rfl, ?_⟩
  simp [rtAudioInputStop, LockFreeRingBuffer.available, LockFreeRingBuffer.clear, usub,
    Nat.mod_self]

/-- Witness for claim C9: an input with 7 buffered bytes and a parked promise. -/
theorem claim_C9_witness :
    ((⟨true, false, true, true, ⟨7, 2, fun _ => 1⟩⟩ :
        RtAudioInputState).readPromisePending_ = true) ∧
    ((rtAudioInputStop (⟨true, false, true, true, ⟨7, 2, fun _ => 1⟩⟩ :
          RtAudioInputState)).2 = true
      ∧ (rtAudioInputStop (⟨true, false, true, true, ⟨7, 2, fun _ => 1⟩⟩ :
            RtAudioInputState)).1.readPromisePending_ = false
      ∧ LockFreeRingBuffer.available
          (rtAudioInputStop (⟨true, false, true, true, ⟨7, 2, fun _ => 1⟩⟩ :
            RtAudioInputState)).1.buffer_ = 0) :=
  ⟨rfl, claim_C9_stop_rejects_parked _ rfl⟩

end RtAudioInputModel

end OpenautoRK
